import Mathlib

/-!
# Verification of the FEM Laplace-Beltrami assembly (`laplace_beltrami.py`)

Shallow embedding of `computeAB` and `fem_laplacian` from
`src/mindboggle/shapes/laplace_beltrami.py`.  Floating-point values are
modelled as real numbers; the per-triangle square root `vol = |e1 × e2|`
is `Real.sqrt`.  The scipy sparse construction
`csr_matrix((data, (I, J)))` is modelled by its summing-duplicates
semantics: the global matrix entry at `(p, q)` is the sum, over all
triangles and all nine local positions, of the local values whose
row/column index pair equals `(p, q)`; its inferred shape is
`(max index + 1) × (max index + 1)`.  The scipy eigensolver called by
`fem_laplacian` is an external collaborator and is abstracted as a
`solver` argument.
-/

namespace LaplaceBeltrami

/- Float arithmetic is modelled exactly over `ℝ`; `Real.sqrt` (for `vol`)
makes the section noncomputable — the concrete evaluations needed by the
theorems below are done by `norm_num`/`simp` instead of the evaluator. -/
noncomputable section

/-- A 3-D point / vector (one row of the `points` array). -/
structure Vec3 where
  x : ℝ
  y : ℝ
  z : ℝ

/-- A triangular face: three vertex indices (one row of the `faces` array). -/
abbrev Face := ℕ × ℕ × ℕ

/-- Componentwise subtraction of 3-D vectors (`v2 - v1` in numpy). -/
def vsub (a b : Vec3) : Vec3 := ⟨a.x - b.x, a.y - b.y, a.z - b.z⟩

/-- Dot product (`np.sum(u * v, axis=1)` for one row). -/
def dot (a b : Vec3) : ℝ := a.x * b.x + a.y * b.y + a.z * b.z

/-- Cross product (`np.cross(u, v)` for one row). -/
def cross (a b : Vec3) : Vec3 :=
  ⟨a.y * b.z - a.z * b.y, a.z * b.x - a.x * b.z, a.x * b.y - a.y * b.x⟩

/-- Vertex lookup `points[i]`.  Out-of-range access, an error in numpy,
is modelled with a default of the origin; every claim that depends on
indexing carries an in-range hypothesis. -/
def pt (points : List Vec3) (i : ℕ) : Vec3 := points.getD i ⟨0, 0, 0⟩

/-- Edge `v2 - v1` of a face `(i, j, k)`: from vertex `i` to vertex `j`. -/
def v2mv1 (points : List Vec3) (f : Face) : Vec3 :=
  vsub (pt points f.2.1) (pt points f.1)

/-- Edge `v3 - v1` of a face `(i, j, k)`: from vertex `i` to vertex `k`. -/
def v3mv1 (points : List Vec3) (f : Face) : Vec3 :=
  vsub (pt points f.2.2) (pt points f.1)

/-- Scalar `a0 = |v3 - v1|²` (squared length of the second edge). -/
def a0 (points : List Vec3) (f : Face) : ℝ :=
  dot (v3mv1 points f) (v3mv1 points f)

/-- Scalar `a1 = |v2 - v1|²` (squared length of the first edge). -/
def a1 (points : List Vec3) (f : Face) : ℝ :=
  dot (v2mv1 points f) (v2mv1 points f)

/-- Scalar `a0110 = (v2 - v1) · (v3 - v1)` (dot product of the two edges). -/
def a0110 (points : List Vec3) (f : Face) : ℝ :=
  dot (v2mv1 points f) (v3mv1 points f)

/-- Scalar `vol = sqrt(sum(cr * cr))` where `cr = cross(v2 - v1, v3 - v1)`:
the magnitude of the cross product, i.e. twice the triangle's area. -/
def vol (points : List Vec3) (f : Face) : ℝ :=
  Real.sqrt (dot (cross (v2mv1 points f) (v3mv1 points f))
                 (cross (v2mv1 points f) (v3mv1 points f)))

/-- List of `vol` values, one per face (the `vol` array before the
degenerate-triangle substitution). -/
def volList (points : List Vec3) (faces : List Face) : List ℝ :=
  faces.map (vol points)

/-- Mean volume `vol_mean = np.mean(vol)` over all faces. -/
def volMean (points : List Vec3) (faces : List Face) : ℝ :=
  (volList points faces).sum / (faces.length : ℝ)

/-- Substituted volume of one face, as in
`vol = [vol_mean if x == 0 else x for x in vol]`. -/
def volAdj (points : List Vec3) (faces : List Face) (f : Face) : ℝ :=
  if vol points f = 0 then volMean points faces else vol points f

/-- Constant basis matrix `tB = (np.ones((3,3)) + np.eye(3)) / 24.0`. -/
def tB : Matrix (Fin 3) (Fin 3) ℝ :=
  Matrix.of fun r c => (1 + if r = c then 1 else 0) / 24

/-- Constant basis matrix `tA00`. -/
def tA00 : Matrix (Fin 3) (Fin 3) ℝ :=
  !![1/2, -(1/2), 0; -(1/2), 1/2, 0; 0, 0, 0]

/-- Constant basis matrix `tA11`. -/
def tA11 : Matrix (Fin 3) (Fin 3) ℝ :=
  !![1/2, 0, -(1/2); 0, 0, 0; -(1/2), 0, 1/2]

/-- Constant basis matrix `tA0110`. -/
def tA0110 : Matrix (Fin 3) (Fin 3) ℝ :=
  !![1, -(1/2), -(1/2); -(1/2), 0, 1/2; -(1/2), 1/2, 0]

/-- Local mass block `localB = vol * tB`, built from the substituted
volume. -/
def localB (points : List Vec3) (faces : List Face) (f : Face) :
    Matrix (Fin 3) (Fin 3) ℝ :=
  volAdj points faces f • tB

/-- Local stiffness block
`localA = (1.0/vol) * (a0*tA00 + a1*tA11 - a0110*tA0110)`, built from the
substituted volume. -/
def localA (points : List Vec3) (faces : List Face) (f : Face) :
    Matrix (Fin 3) (Fin 3) ℝ :=
  (1 / volAdj points faces f) •
    (a0 points f • tA00 + a1 points f • tA11 - a0110 points f • tA0110)

/-- Index vector `idx = [i, j, k]` of a face. -/
def idx (f : Face) : Fin 3 → ℕ := ![f.1, f.2.1, f.2.2]

/-- One triangle's contribution to the global entry `(p, q)`.  In the
source, `J[t][r][c] = faces[t][c]` and `I[t][r][c] = faces[t][r]` are
built by `tile`/`transpose`, then swapped (`I_new = J.flatten`,
`J_new = I.flatten`), so the local value at `(r, c)` is filed under
row `faces[t][c]` and column `faces[t][r]`; `csr_matrix` sums all
values filed under the same `(row, col)` pair. -/
def assembleEntry (f : Face) (loc : Matrix (Fin 3) (Fin 3) ℝ) (p q : ℕ) : ℝ :=
  ∑ r : Fin 3, ∑ c : Fin 3, if idx f c = p ∧ idx f r = q then loc r c else 0

/-- Global scatter-add of per-face local blocks (duplicate `(row, col)`
pairs accumulate, as in `sparse.csr_matrix((data, (I, J)))`). -/
def assembleWith (faces : List Face) (loc : Face → Matrix (Fin 3) (Fin 3) ℝ)
    (p q : ℕ) : ℝ :=
  (faces.map fun f => assembleEntry f (loc f) p q).sum

/-- Entry `(p, q)` of the global stiffness matrix `A` of `computeAB`. -/
def computeA (points : List Vec3) (faces : List Face) (p q : ℕ) : ℝ :=
  assembleWith faces (localA points faces) p q

/-- Entry `(p, q)` of the global mass matrix `B` of `computeAB`. -/
def computeB (points : List Vec3) (faces : List Face) (p q : ℕ) : ℝ :=
  assembleWith faces (localB points faces) p q

/-- Largest vertex index of one face. -/
def faceMax (f : Face) : ℕ := max f.1 (max f.2.1 f.2.2)

/-- Largest vertex index appearing in any face. -/
def maxIndex (faces : List Face) : ℕ := (faces.map faceMax).foldr max 0

/-- Square dimension that `sparse.csr_matrix((data, (I, J)))` infers for
the assembled matrices: one more than the largest index used. -/
def matSize (faces : List Face) : ℕ := maxIndex faces + 1

/-- Validity of the faces: all three vertex indices of every face are
below `n` (faces index into a `points` list of length `n`). -/
def facesValid (n : ℕ) (faces : List Face) : Prop :=
  ∀ f ∈ faces, f.1 < n ∧ f.2.1 < n ∧ f.2.2 < n

instance (n : ℕ) (faces : List Face) : Decidable (facesValid n faces) := by
  unfold facesValid; infer_instance

/-- Embedding of `fem_laplacian`, with the external scipy call
`eigsh(A, k=3, M=B, which="SM")` abstracted as a `solver` argument
(scipy is an external collaborator, not part of this repository):
if the mesh has fewer than 5 points the sentinel `[-1,-1,-1,-1,-1]`
is returned, otherwise the solver is applied to the assembled pair. -/
def fem_laplacian (solver : (ℕ → ℕ → ℝ) → (ℕ → ℕ → ℝ) → List ℝ)
    (points : List Vec3) (faces : List Face) : List ℝ :=
  if points.length < 5 then [-1, -1, -1, -1, -1]
  else solver (computeA points faces) (computeB points faces)

/-- One triangle's contribution as the spec's §4.3 describes it (for the
comparison with `assembleEntry`): the local value at `(r, c)` is added to
the global entry at `(idx[r], idx[c])`. -/
def assembleEntrySpec (f : Face) (loc : Matrix (Fin 3) (Fin 3) ℝ) (p q : ℕ) : ℝ :=
  ∑ r : Fin 3, ∑ c : Fin 3, if idx f r = p ∧ idx f c = q then loc r c else 0

/-- Global scatter-add as the spec describes it, with accumulation. -/
def assembleWithSpec (faces : List Face) (loc : Face → Matrix (Fin 3) (Fin 3) ℝ)
    (p q : ℕ) : ℝ :=
  (faces.map fun f => assembleEntrySpec f (loc f) p q).sum

/-- Substitution as claim C5 words it (for the comparison with `volAdj`):
the mean of `vol` over all the OTHER triangles, i.e. over the face list
with one occurrence of the degenerate face removed. -/
def volMeanOthers (points : List Vec3) (faces : List Face) (f : Face) : ℝ :=
  ((faces.erase f).map (vol points)).sum / ((faces.erase f).length : ℝ)

/-- Stiffness block as claim C5 words it: built from the mean volume of
the other triangles. -/
def localA_meanOthers (points : List Vec3) (faces : List Face) (f : Face) :
    Matrix (Fin 3) (Fin 3) ℝ :=
  (1 / volMeanOthers points faces f) •
    (a0 points f • tA00 + a1 points f • tA11 - a0110 points f • tA0110)

/-- Concrete 4-vertex mesh used to evaluate the definitions: vertices
`0,1,2` are collinear, so the face `(0,1,2)` is degenerate (zero area)
while `(0,1,3)` has area `1/2` (`vol = 1`). -/
def meshP : List Vec3 := [⟨0, 0, 0⟩, ⟨1, 0, 0⟩, ⟨2, 0, 0⟩, ⟨0, 1, 0⟩]

/-- Two faces of the concrete mesh: one non-degenerate, one degenerate. -/
def meshF : List Face := [(0, 1, 3), (0, 1, 2)]

/-- Concrete 5-point mesh (the 4 points of `meshP` plus one more), large
enough for `fem_laplacian`'s assembly branch. -/
def meshP5 : List Vec3 := meshP ++ [⟨0, 0, 1⟩]

end

/-- Trivial concrete eigensolver stand-in, used only to instantiate the
`solver` argument of `fem_laplacian` at concrete inputs. -/
def solver0 : (ℕ → ℕ → ℝ) → (ℕ → ℕ → ℝ) → List ℝ := fun _ _ => []

/-! ## Helper lemmas -/

/-- Symmetry of the constant basis matrix `tB`. -/
theorem tB_symm : ∀ r c : Fin 3, tB r c = tB c r := by
  intro r c; fin_cases r <;> fin_cases c <;> simp [tB]

/-- Symmetry of the constant basis matrix `tA00`. -/
theorem tA00_symm : ∀ r c : Fin 3, tA00 r c = tA00 c r := by
  intro r c; fin_cases r <;> fin_cases c <;>
    simp [tA00, Matrix.vecHead, Matrix.vecTail]

/-- Symmetry of the constant basis matrix `tA11`. -/
theorem tA11_symm : ∀ r c : Fin 3, tA11 r c = tA11 c r := by
  intro r c; fin_cases r <;> fin_cases c <;>
    simp [tA11, Matrix.vecHead, Matrix.vecTail]

/-- Symmetry of the constant basis matrix `tA0110`. -/
theorem tA0110_symm : ∀ r c : Fin 3, tA0110 r c = tA0110 c r := by
  intro r c; fin_cases r <;> fin_cases c <;>
    simp [tA0110, Matrix.vecHead, Matrix.vecTail]

/-- Every local mass block is a symmetric 3×3 matrix. -/
theorem localB_symm (points : List Vec3) (faces : List Face) (f : Face) :
    ∀ r c, localB points faces f r c = localB points faces f c r := by
  intro r c
  simp [localB, Matrix.smul_apply, tB_symm r c]

/-- Every local stiffness block is a symmetric 3×3 matrix. -/
theorem localA_symm (points : List Vec3) (faces : List Face) (f : Face) :
    ∀ r c, localA points faces f r c = localA points faces f c r := by
  intro r c
  simp [localA, Matrix.smul_apply, Matrix.add_apply, Matrix.sub_apply,
    tA00_symm r c, tA11_symm r c, tA0110_symm r c]

/-- One face's scatter contribution is symmetric in `(p, q)` whenever its
local block is a symmetric matrix. -/
theorem assembleEntry_symm (f : Face) (loc : Matrix (Fin 3) (Fin 3) ℝ)
    (hloc : ∀ r c, loc r c = loc c r) (p q : ℕ) :
    assembleEntry f loc p q = assembleEntry f loc q p := by
  unfold assembleEntry
  rw [Finset.sum_comm]
  refine Finset.sum_congr rfl fun u _ => Finset.sum_congr rfl fun v _ => ?_
  exact if_congr and_comm (hloc v u) rfl

/-- An assembled global matrix is symmetric whenever every local block is
a symmetric matrix. -/
theorem assembleWith_symm (faces : List Face)
    (loc : Face → Matrix (Fin 3) (Fin 3) ℝ)
    (hloc : ∀ f r c, loc f r c = loc f c r) (p q : ℕ) :
    assembleWith faces loc p q = assembleWith faces loc q p := by
  unfold assembleWith
  congr 1
  exact List.map_congr_left fun f _ => assembleEntry_symm f (loc f) (hloc f) p q

/-- For a symmetric local block, the source's transposed scatter (local
`(r, c)` filed at `(idx[c], idx[r])`) agrees with the spec's scatter
(local `(r, c)` filed at `(idx[r], idx[c])`). -/
theorem assembleEntry_eq_spec (f : Face) (loc : Matrix (Fin 3) (Fin 3) ℝ)
    (hloc : ∀ r c, loc r c = loc c r) (p q : ℕ) :
    assembleEntry f loc p q = assembleEntrySpec f loc p q := by
  unfold assembleEntry assembleEntrySpec
  rw [Finset.sum_comm]
  refine Finset.sum_congr rfl fun u _ => Finset.sum_congr rfl fun v _ => ?_
  exact if_congr Iff.rfl (hloc v u) rfl

/-- Evaluation of `vol` at the non-degenerate face of the concrete mesh. -/
theorem vol_mesh_good : vol meshP (0, 1, 3) = 1 := by
  simp [vol, v2mv1, v3mv1, pt, vsub, cross, dot, meshP]

/-- Evaluation of `vol` at the degenerate (collinear) face. -/
theorem vol_mesh_deg : vol meshP (0, 1, 2) = 0 := by
  simp [vol, v2mv1, v3mv1, pt, vsub, cross, dot, meshP]

/-- Evaluation of the mean volume of the concrete mesh: `(1 + 0) / 2`. -/
theorem volMean_mesh : volMean meshP meshF = 1 / 2 := by
  simp [volMean, volList, meshF, vol_mesh_good, vol_mesh_deg]

/-- A non-degenerate face keeps its own volume. -/
theorem volAdj_of_ne (points : List Vec3) (faces : List Face) (f : Face)
    (h : vol points f ≠ 0) : volAdj points faces f = vol points f :=
  if_neg h

/-- A degenerate face gets the mean volume. -/
theorem volAdj_of_eq (points : List Vec3) (faces : List Face) (f : Face)
    (h : vol points f = 0) : volAdj points faces f = volMean points faces :=
  if_pos h

/-- Evaluation of `a0` at the degenerate face: `|(2,0,0)|² = 4`. -/
theorem a0_mesh_deg : a0 meshP (0, 1, 2) = 4 := by
  simp [a0, v3mv1, pt, vsub, dot, meshP]
  norm_num

/-- Evaluation of `a1` at the degenerate face: `|(1,0,0)|² = 1`. -/
theorem a1_mesh_deg : a1 meshP (0, 1, 2) = 1 := by
  simp [a1, v2mv1, pt, vsub, dot, meshP]

/-- Evaluation of `a0110` at the degenerate face: `(1,0,0)·(2,0,0) = 2`. -/
theorem a0110_mesh_deg : a0110 meshP (0, 1, 2) = 2 := by
  simp [a0110, v2mv1, v3mv1, pt, vsub, dot, meshP]

/-- Evaluation of the mean volume of the other faces at the degenerate
face of the concrete mesh: only `(0,1,3)` remains, so the mean is `1`. -/
theorem volMeanOthers_mesh : volMeanOthers meshP meshF (0, 1, 2) = 1 := by
  simp [volMeanOthers, meshF, List.erase_cons, vol_mesh_good]

/-- Positivity of the mean volume when some face is non-degenerate;
all `vol` values are square roots, hence nonnegative. -/
theorem volMean_pos (points : List Vec3) (faces : List Face)
    (hex : ∃ g ∈ faces, vol points g ≠ 0) : 0 < volMean points faces := by
  obtain ⟨g, hg, hne⟩ := hex
  have hle : ∀ x ∈ volList points faces, 0 ≤ x := by
    intro x hx
    simp only [volList, List.mem_map] at hx
    obtain ⟨f, _, rfl⟩ := hx
    exact Real.sqrt_nonneg _
  have hmem : vol points g ∈ volList points faces := List.mem_map_of_mem _ hg
  have hpos : 0 < (volList points faces).sum :=
    lt_of_lt_of_le (lt_of_le_of_ne (Real.sqrt_nonneg _) (Ne.symm hne))
      (List.single_le_sum hle _ hmem)
  have hlen : 0 < (faces.length : ℝ) := by
    cases faces with
    | nil => simp at hg
    | cons a l => exact_mod_cast Nat.succ_pos l.length
  exact div_pos hpos hlen

/-- Monotone bound for `maxIndex`: it dominates every member's largest
index. -/
theorem le_maxIndex (faces : List Face) (f : Face) (hf : f ∈ faces) :
    faceMax f ≤ maxIndex faces := by
  induction faces with
  | nil => simp at hf
  | cons a t ih =>
    simp only [maxIndex, List.map_cons, List.foldr_cons]
    rcases List.mem_cons.mp hf with h | h
    · rw [h]; exact le_max_left _ _
    · exact le_trans (ih h) (le_max_right _ _)

/-- Strict upper bound for `maxIndex` over valid faces. -/
theorem maxIndex_lt (n : ℕ) (faces : List Face) (hn : 0 < n)
    (hv : ∀ f ∈ faces, faceMax f < n) : maxIndex faces < n := by
  induction faces with
  | nil => simpa [maxIndex]
  | cons a t ih =>
    simp only [maxIndex, List.map_cons, List.foldr_cons]
    have h1 : faceMax a < n := hv a (List.mem_cons_self a t)
    have h2 : maxIndex t < n := ih fun f hf => hv f (List.mem_cons_of_mem a hf)
    simp only [maxIndex] at h2
    omega

/-- Double range sum of a doubly-peaked indicator term. -/
theorem sum_pair_ite (n a b : ℕ) (v : ℝ) :
    ∑ p ∈ Finset.range n, ∑ q ∈ Finset.range n, (if a = p ∧ b = q then v else 0)
      = if a < n ∧ b < n then v else 0 := by
  calc ∑ p ∈ Finset.range n, ∑ q ∈ Finset.range n, (if a = p ∧ b = q then v else 0)
      = ∑ p ∈ Finset.range n, (if a = p then (if b < n then v else 0) else 0) := by
        refine Finset.sum_congr rfl fun p _ => ?_
        by_cases hap : a = p
        · simp [hap, Finset.sum_ite_eq, Finset.mem_range]
        · simp [hap]
    _ = if a < n then (if b < n then v else 0) else 0 := by
        simp [Finset.sum_ite_eq, Finset.mem_range]
    _ = if a < n ∧ b < n then v else 0 := by
        by_cases ha : a < n <;> by_cases hb : b < n <;> simp [ha, hb]

/-- Sum over all in-range global entries of one face's contribution:
exactly the sum of the local block's nine entries. -/
theorem entrySum_assembleEntry (n : ℕ) (f : Face) (loc : Matrix (Fin 3) (Fin 3) ℝ)
    (h1 : f.1 < n) (h2 : f.2.1 < n) (h3 : f.2.2 < n) :
    ∑ p ∈ Finset.range n, ∑ q ∈ Finset.range n, assembleEntry f loc p q
      = ∑ r : Fin 3, ∑ c : Fin 3, loc r c := by
  simp only [assembleEntry, Fin.sum_univ_three, Finset.sum_add_distrib,
    sum_pair_ite, idx, Matrix.cons_val_zero, Matrix.cons_val_one,
    Matrix.head_cons, Matrix.cons_val_two, Matrix.tail_cons]
  simp [h1, h2, h3]

/-- Unfolding of the scatter-add over a cons cell. -/
theorem assembleWith_cons (f : Face) (t : List Face)
    (loc : Face → Matrix (Fin 3) (Fin 3) ℝ) (p q : ℕ) :
    assembleWith (f :: t) loc p q
      = assembleEntry f (loc f) p q + assembleWith t loc p q := by
  simp [assembleWith]

/-- Sum over all in-range global entries of the whole assembly: the sum
of all local blocks' entry sums. -/
theorem entrySum_assembleWith (n : ℕ) (l : List Face)
    (loc : Face → Matrix (Fin 3) (Fin 3) ℝ)
    (hv : ∀ f ∈ l, f.1 < n ∧ f.2.1 < n ∧ f.2.2 < n) :
    ∑ p ∈ Finset.range n, ∑ q ∈ Finset.range n, assembleWith l loc p q
      = (l.map fun f => ∑ r : Fin 3, ∑ c : Fin 3, loc f r c).sum := by
  induction l with
  | nil => simp [assembleWith]
  | cons f t ih =>
    have hf := hv f (List.mem_cons_self f t)
    have ht := fun g hg => hv g (List.mem_cons_of_mem f hg)
    simp only [assembleWith_cons, Finset.sum_add_distrib]
    rw [entrySum_assembleEntry n f (loc f) hf.1 hf.2.1 hf.2.2, ih ht,
      List.map_cons, List.sum_cons]

/-- Entry sum of the unit mass block: `(9·1 + 3·1) / 24 = 1/2`. -/
theorem entrySum_tB : ∑ r : Fin 3, ∑ c : Fin 3, tB r c = 1 / 2 := by
  simp [tB, Fin.sum_univ_three]
  norm_num

/-- Entry sum of a local mass block: half the (substituted) volume, i.e.
the (substituted) triangle area. -/
theorem entrySum_localB (points : List Vec3) (faces : List Face) (f : Face) :
    ∑ r : Fin 3, ∑ c : Fin 3, localB points faces f r c
      = volAdj points faces f / 2 := by
  simp only [localB, Matrix.smul_apply, smul_eq_mul, ← Finset.mul_sum]
  rw [entrySum_tB]
  ring

/-- Strict monotonicity of a mapped list sum: pointwise `≤` with one
strict member gives a strict sum inequality. -/
theorem sum_map_lt (l : List Face) (g h : Face → ℝ)
    (hle : ∀ a ∈ l, g a ≤ h a) (hlt : ∃ a ∈ l, g a < h a) :
    (l.map g).sum < (l.map h).sum := by
  induction l with
  | nil => simp at hlt
  | cons a t ih =>
    simp only [List.map_cons, List.sum_cons]
    obtain ⟨b, hb, hblt⟩ := hlt
    rcases List.mem_cons.mp hb with rfl | hbt
    · exact add_lt_add_of_lt_of_le hblt
        (List.sum_le_sum fun i hi => hle i (List.mem_cons_of_mem _ hi))
    · exact add_lt_add_of_le_of_lt (hle a (List.mem_cons_self a t))
        (ih (fun i hi => hle i (List.mem_cons_of_mem _ hi)) ⟨b, hbt, hblt⟩)

/-! ## Claims -/

/-- C1 counterexample: the claim's closed forms use `vol = |e1 × e2|`
itself for every triangle, but the degenerate face `(0,1,2)` of the
concrete mesh has `vol = 0` while its mass block is `(1/2) • tB ≠ 0 • tB`
(the substituted mean volume is used instead). -/
theorem claim_C1_counterexample :
    localB meshP meshF (0, 1, 2) ≠ vol meshP (0, 1, 2) • tB := by
  intro hcontra
  have h00 := congrFun (congrFun hcontra 0) 0
  rw [localB, volAdj_of_eq _ _ _ vol_mesh_deg, volMean_mesh, vol_mesh_deg] at h00
  simp [Matrix.smul_apply, tB] at h00

/-- C1 (amended): for every triangle whose `vol = |e1 × e2|` is nonzero,
the local mass block equals `vol • tB` and the local stiffness block
equals `(1/vol) • (a0•tA00 + a1•tA11 - a0110•tA0110)`; a zero-`vol`
triangle instead uses the mesh's mean volume in both blocks. -/
theorem claim_C1_local_blocks (points : List Vec3) (faces : List Face) (f : Face)
    (h : vol points f ≠ 0) :
    localB points faces f = vol points f • tB ∧
    localA points faces f = (1 / vol points f) •
      (a0 points f • tA00 + a1 points f • tA11 - a0110 points f • tA0110) := by
  rw [localB, localA, volAdj_of_ne points faces f h]
  exact ⟨rfl, rfl⟩

/-- Witness for C1 at the non-degenerate face of the concrete mesh. -/
theorem claim_C1_witness :
    localB meshP meshF (0, 1, 3) = vol meshP (0, 1, 3) • tB ∧
    localA meshP meshF (0, 1, 3) = (1 / vol meshP (0, 1, 3)) •
      (a0 meshP (0, 1, 3) • tA00 + a1 meshP (0, 1, 3) • tA11 -
        a0110 meshP (0, 1, 3) • tA0110) :=
  claim_C1_local_blocks meshP meshF (0, 1, 3) (by simp [vol_mesh_good])

/-- C2: the global matrices produced by `computeAB` equal the matrices
obtained by adding each local block's `(r, c)` entry to the global entry
`(idx[r], idx[c])`, accumulating over all triangles (the source's
row/column swap is invisible because every local block is symmetric). -/
theorem claim_C2_assembly (points : List Vec3) (faces : List Face) (p q : ℕ) :
    computeA points faces p q = assembleWithSpec faces (localA points faces) p q ∧
    computeB points faces p q = assembleWithSpec faces (localB points faces) p q := by
  constructor
  · unfold computeA assembleWith assembleWithSpec
    congr 1
    exact List.map_congr_left fun f _ =>
      assembleEntry_eq_spec f _ (localA_symm points faces f) p q
  · unfold computeB assembleWith assembleWithSpec
    congr 1
    exact List.map_congr_left fun f _ =>
      assembleEntry_eq_spec f _ (localB_symm points faces f) p q

/-- C3: for every valid input (all face indices in range), both matrices
returned by `computeAB` are symmetric: `A[p,q] = A[q,p]` and
`B[p,q] = B[q,p]` for all index pairs. -/
theorem claim_C3_computeAB_symmetric (points : List Vec3) (faces : List Face)
    (_h : facesValid points.length faces) (p q : ℕ) :
    computeA points faces p q = computeA points faces q p ∧
    computeB points faces p q = computeB points faces q p :=
  ⟨assembleWith_symm faces _ (localA_symm points faces) p q,
   assembleWith_symm faces _ (localB_symm points faces) p q⟩

/-- Witness for C3 at the concrete mesh. -/
theorem claim_C3_witness :
    computeA meshP meshF 0 1 = computeA meshP meshF 1 0 ∧
    computeB meshP meshF 0 1 = computeB meshP meshF 1 0 :=
  claim_C3_computeAB_symmetric meshP meshF (by decide) 0 1

/-- C4 counterexample: on the concrete mesh with one degenerate face, the
sum of all entries of `B` is `3/4`, but the total surface area (sum of
`vol/2`) is `1/2`; the total-mass invariant fails as universally stated. -/
theorem claim_C4_counterexample :
    ∑ p ∈ Finset.range meshP.length, ∑ q ∈ Finset.range meshP.length,
        computeB meshP meshF p q
      ≠ (meshF.map fun f => vol meshP f / 2).sum := by
  simp only [computeB]
  rw [entrySum_assembleWith meshP.length meshF (localB meshP meshF) (by decide)]
  simp only [entrySum_localB]
  rw [show meshF = [((0, 1, 3) : Face), ((0, 1, 2) : Face)] from rfl]
  simp only [List.map_cons, List.map_nil, List.sum_cons, List.sum_nil]
  rw [volAdj_of_ne _ _ _ (by rw [vol_mesh_good]; norm_num),
    volAdj_of_eq _ _ _ vol_mesh_deg,
    show volMean meshP [((0, 1, 3) : Face), ((0, 1, 2) : Face)] = 1 / 2 from
      volMean_mesh,
    vol_mesh_good, vol_mesh_deg]
  norm_num

/-- C4 (amended): when every triangle has nonzero `vol`, each local mass
block's entries sum to that triangle's area `vol/2`, and the sum of all
entries of the global mass matrix `B` equals the total surface area of
the mesh. -/
theorem claim_C4_total_mass (points : List Vec3) (faces : List Face)
    (hv : facesValid points.length faces)
    (hnd : ∀ f ∈ faces, vol points f ≠ 0) :
    (∀ f ∈ faces, ∑ r : Fin 3, ∑ c : Fin 3, localB points faces f r c
        = vol points f / 2) ∧
    ∑ p ∈ Finset.range points.length, ∑ q ∈ Finset.range points.length,
        computeB points faces p q
      = (faces.map fun f => vol points f / 2).sum := by
  constructor
  · intro f hf
    rw [entrySum_localB, volAdj_of_ne _ _ _ (hnd f hf)]
  · simp only [computeB]
    rw [entrySum_assembleWith points.length faces (localB points faces) hv]
    congr 1
    refine List.map_congr_left fun f hf => ?_
    rw [entrySum_localB, volAdj_of_ne _ _ _ (hnd f hf)]

/-- Witness for C4 at a one-face (non-degenerate) mesh. -/
theorem claim_C4_witness :
    (∀ f ∈ [((0, 1, 3) : Face)],
      ∑ r : Fin 3, ∑ c : Fin 3, localB meshP [(0, 1, 3)] f r c
        = vol meshP f / 2) ∧
    ∑ p ∈ Finset.range meshP.length, ∑ q ∈ Finset.range meshP.length,
        computeB meshP [(0, 1, 3)] p q
      = ([((0, 1, 3) : Face)].map fun f => vol meshP f / 2).sum :=
  claim_C4_total_mass meshP [(0, 1, 3)] (by decide)
    (by
      intro f hf
      simp only [List.mem_singleton] at hf
      rw [hf, vol_mesh_good]
      norm_num)

/-- C5 counterexample: on a mesh with exactly one zero-area triangle
among otherwise valid triangles, the degenerate face's stiffness block is
NOT built from the mean volume of the other triangles (here `1`); the
code uses the mean over all triangles (here `1/2`), and the blocks
differ at entry `(0,0)`. -/
theorem claim_C5_counterexample :
    localA meshP meshF (0, 1, 2) ≠ localA_meanOthers meshP meshF (0, 1, 2) := by
  intro hcontra
  have h00 := congrFun (congrFun hcontra 0) 0
  rw [localA, localA_meanOthers, volAdj_of_eq _ _ _ vol_mesh_deg, volMean_mesh,
    volMeanOthers_mesh, a0_mesh_deg, a1_mesh_deg, a0110_mesh_deg] at h00
  simp [Matrix.smul_apply, Matrix.add_apply, Matrix.sub_apply,
    tA00, tA11, tA0110, Matrix.vecHead, Matrix.vecTail] at h00
  norm_num at h00

/-- C5 (amended): for a mesh with one zero-area triangle among otherwise
valid triangles, no division by zero occurs (the substituted volume is
nonzero) and the degenerate triangle's stiffness block is computed with
the mean volume of ALL triangles (`volMean`, the zero included) in place
of its own zero volume. -/
theorem claim_C5_deg_substitution (points : List Vec3) (faces : List Face)
    (f : Face) (_hf : f ∈ faces) (h0 : vol points f = 0)
    (hothers : ∀ g ∈ faces, g ≠ f → vol points g ≠ 0)
    (hex : ∃ g ∈ faces, g ≠ f) :
    volAdj points faces f ≠ 0 ∧
    localA points faces f = (1 / volMean points faces) •
      (a0 points f • tA00 + a1 points f • tA11 - a0110 points f • tA0110) := by
  obtain ⟨g, hg, hgne⟩ := hex
  have hmean : 0 < volMean points faces :=
    volMean_pos points faces ⟨g, hg, hothers g hg hgne⟩
  constructor
  · rw [volAdj_of_eq _ _ _ h0]
    exact ne_of_gt hmean
  · rw [localA, volAdj_of_eq _ _ _ h0]

/-- Witness for C5 (amended) at the concrete mesh. -/
theorem claim_C5_witness :
    volAdj meshP meshF (0, 1, 2) ≠ 0 ∧
    localA meshP meshF (0, 1, 2) = (1 / volMean meshP meshF) •
      (a0 meshP (0, 1, 2) • tA00 + a1 meshP (0, 1, 2) • tA11 -
        a0110 meshP (0, 1, 2) • tA0110) :=
  claim_C5_deg_substitution meshP meshF (0, 1, 2) (by simp [meshF]) vol_mesh_deg
    (by
      intro g hg hne
      simp only [meshF, List.mem_cons, List.mem_singleton] at hg
      rcases hg with h | h | h
      · rw [h, vol_mesh_good]; norm_num
      · exact absurd h hne
      · exact absurd h (by simp))
    ⟨(0, 1, 3), by simp [meshF], by decide⟩

/-- C6: for every triangle whose `vol` is exactly `0`, `computeAB`
substitutes the mean of `vol` over ALL triangles of the mesh (degenerate
ones included in the mean), and the triangle still produces both local
blocks (the embedding is total; no error is raised). -/
theorem claim_C6_mean_over_all (points : List Vec3) (faces : List Face)
    (f : Face) (h0 : vol points f = 0) :
    volAdj points faces f = (faces.map (vol points)).sum / (faces.length : ℝ) ∧
    localB points faces f = volAdj points faces f • tB ∧
    localA points faces f = (1 / volAdj points faces f) •
      (a0 points f • tA00 + a1 points f • tA11 - a0110 points f • tA0110) := by
  refine ⟨?_, rfl, rfl⟩
  rw [volAdj_of_eq _ _ _ h0, volMean, volList]

/-- Witness for C6 at the degenerate face of the concrete mesh. -/
theorem claim_C6_witness :
    volAdj meshP meshF (0, 1, 2) = (meshF.map (vol meshP)).sum / (meshF.length : ℝ) ∧
    localB meshP meshF (0, 1, 2) = volAdj meshP meshF (0, 1, 2) • tB ∧
    localA meshP meshF (0, 1, 2) = (1 / volAdj meshP meshF (0, 1, 2)) •
      (a0 meshP (0, 1, 2) • tA00 + a1 meshP (0, 1, 2) • tA11 -
        a0110 meshP (0, 1, 2) • tA0110) :=
  claim_C6_mean_over_all meshP meshF (0, 1, 2) vol_mesh_deg

/-- C7: with fewer than 5 points, `fem_laplacian` returns exactly the
sentinel `[-1,-1,-1,-1,-1]` and the result does not depend on the
eigensolver (no assembly result is consumed); with 5 or more points it
returns the solver's output on the assembled pair `(A, B)`. -/
theorem claim_C7_fem_branches
    (solver solver' : (ℕ → ℕ → ℝ) → (ℕ → ℕ → ℝ) → List ℝ)
    (points : List Vec3) (faces : List Face) :
    (points.length < 5 → fem_laplacian solver points faces = [-1, -1, -1, -1, -1] ∧
      fem_laplacian solver points faces = fem_laplacian solver' points faces) ∧
    (5 ≤ points.length → fem_laplacian solver points faces =
      solver (computeA points faces) (computeB points faces)) := by
  constructor
  · intro h
    constructor <;> simp [fem_laplacian, h]
  · intro h
    simp [fem_laplacian, Nat.not_lt.mpr h]

/-- Witness for C7: both branches at concrete meshes. -/
theorem claim_C7_witness :
    (fem_laplacian solver0 meshP meshF = [-1, -1, -1, -1, -1] ∧
     fem_laplacian solver0 meshP meshF = fem_laplacian solver0 meshP meshF) ∧
    fem_laplacian solver0 meshP5 meshF =
      solver0 (computeA meshP5 meshF) (computeB meshP5 meshF) :=
  ⟨(claim_C7_fem_branches solver0 solver0 meshP meshF).1 (by decide),
   (claim_C7_fem_branches solver0 solver0 meshP5 meshF).2 (by decide)⟩

/-- C8: under the precondition that faces are valid and every vertex
index of a nonempty `points` list is referenced by at least one face, the
inferred size of both assembled sparse matrices is `N×N` with
`N = len(points)`. -/
theorem claim_C8_matrix_size (points : List Vec3) (faces : List Face)
    (hv : facesValid points.length faces)
    (hcover : ∀ v, v < points.length →
      ∃ f ∈ faces, v = f.1 ∨ v = f.2.1 ∨ v = f.2.2)
    (hn : 0 < points.length) :
    matSize faces = points.length := by
  have hupper : maxIndex faces < points.length := by
    refine maxIndex_lt _ _ hn fun f hf => ?_
    obtain ⟨h1, h2, h3⟩ := hv f hf
    simp only [faceMax]
    omega
  have hlower : points.length - 1 ≤ maxIndex faces := by
    obtain ⟨f, hf, hcase⟩ := hcover (points.length - 1) (by omega)
    have hle := le_maxIndex faces f hf
    have : points.length - 1 ≤ faceMax f := by
      simp only [faceMax]
      rcases hcase with h | h | h <;> omega
    omega
  unfold matSize
  omega

/-- Witness for C8 at the concrete mesh (all 4 vertices covered). -/
theorem claim_C8_witness : matSize meshF = meshP.length :=
  claim_C8_matrix_size meshP meshF (by decide) (by decide) (by decide)

/-- C9: on a mesh where at least one but not all triangles have zero
area, every degenerate triangle's mass block is `volMean • tB`, its
entries summing to the spurious mass `volMean / 2`, and the sum of all
entries of `B` strictly exceeds the mesh's true total surface area. -/
theorem claim_C9_spurious_mass (points : List Vec3) (faces : List Face)
    (hv : facesValid points.length faces)
    (hdeg : ∃ f ∈ faces, vol points f = 0)
    (hnd : ∃ g ∈ faces, vol points g ≠ 0) :
    (∀ f ∈ faces, vol points f = 0 →
      localB points faces f = volMean points faces • tB ∧
      ∑ r : Fin 3, ∑ c : Fin 3, localB points faces f r c
        = volMean points faces / 2) ∧
    (faces.map fun f => vol points f / 2).sum <
      ∑ p ∈ Finset.range points.length, ∑ q ∈ Finset.range points.length,
        computeB points faces p q := by
  have hmean : 0 < volMean points faces := volMean_pos points faces hnd
  constructor
  · intro f hf h0
    constructor
    · rw [localB, volAdj_of_eq _ _ _ h0]
    · rw [entrySum_localB, volAdj_of_eq _ _ _ h0]
  · simp only [computeB]
    rw [entrySum_assembleWith points.length faces (localB points faces) hv]
    simp only [entrySum_localB]
    refine sum_map_lt faces _ _ ?_ ?_
    · intro f hf
      by_cases h0 : vol points f = 0
      · rw [volAdj_of_eq _ _ _ h0, h0]
        linarith
      · rw [volAdj_of_ne _ _ _ h0]
    · obtain ⟨f, hf, h0⟩ := hdeg
      refine ⟨f, hf, ?_⟩
      rw [volAdj_of_eq _ _ _ h0, h0]
      linarith

/-- Witness for C9 at the concrete mesh with one degenerate face. -/
theorem claim_C9_witness :
    (∀ f ∈ meshF, vol meshP f = 0 →
      localB meshP meshF f = volMean meshP meshF • tB ∧
      ∑ r : Fin 3, ∑ c : Fin 3, localB meshP meshF f r c
        = volMean meshP meshF / 2) ∧
    (meshF.map fun f => vol meshP f / 2).sum <
      ∑ p ∈ Finset.range meshP.length, ∑ q ∈ Finset.range meshP.length,
        computeB meshP meshF p q :=
  claim_C9_spurious_mass meshP meshF (by decide)
    ⟨(0, 1, 2), by simp [meshF], vol_mesh_deg⟩
    ⟨(0, 1, 3), by simp [meshF], by rw [vol_mesh_good]; norm_num⟩

/-- C10: with fewer than 5 points, `fem_laplacian` returns the sentinel
for EVERY faces argument — malformed or out-of-range faces included — so
the result never depends on `faces`. -/
theorem claim_C10_small_ignores_faces
    (solver : (ℕ → ℕ → ℝ) → (ℕ → ℕ → ℝ) → List ℝ)
    (points : List Vec3) (faces faces' : List Face)
    (h : points.length < 5) :
    fem_laplacian solver points faces = [-1, -1, -1, -1, -1] ∧
    fem_laplacian solver points faces = fem_laplacian solver points faces' := by
  constructor <;> simp [fem_laplacian, h]

/-- Witness for C10 with an out-of-range face list. -/
theorem claim_C10_witness :
    fem_laplacian solver0 meshP [(99, 7, 3)] = [-1, -1, -1, -1, -1] ∧
    fem_laplacian solver0 meshP [(99, 7, 3)] = fem_laplacian solver0 meshP meshF :=
  claim_C10_small_ignores_faces solver0 meshP [(99, 7, 3)] meshF (by decide)

end LaplaceBeltrami
